import Mathlib

/-!
# Upwork job watcher: a shallow embedding of `src/server.js`

The development follows the pipeline of the source file:

* `scrapeUpworkJobs`  : fetch the page, walk the `.up-card-section` containers, keep the
  ones whose skills meet the watch-list;
* `filterNewJobs`     : look every candidate up in the `jobs` collection, insert the unknown;
* `sendEmailNotification` and `checkForNewJobs` : one pass of the pipeline;
* `main`              : registers the cron job and runs the initial check.

JavaScript strings are modelled by `String` (sequences of code points), `undefined` by
`none`, the documents of the MongoDB collection by a list in insertion order, and every call
that leaves the process (`http.get`, `findOne`, `insertOne`, `sendMail`) consults an
outcome oracle that says whether this call succeeds or throws.
-/

namespace UpworkScraper

/-! ## Strings: `trim` and `split` -/

/-- The code points that `String.prototype.trim` removes: ECMAScript `WhiteSpace` and
`LineTerminator`. -/
def isJsWhiteSpace (c : Char) : Bool :=
  [0x09, 0x0A, 0x0B, 0x0C, 0x0D, 0x20, 0xA0, 0x1680, 0x2000, 0x2001, 0x2002, 0x2003, 0x2004,
   0x2005, 0x2006, 0x2007, 0x2008, 0x2009, 0x200A, 0x2028, 0x2029, 0x202F, 0x205F, 0x3000,
   0xFEFF].contains c.toNat

/-- The method `s.trim()`: white space is dropped from both ends. -/
def jsTrim (s : String) : String :=
  String.mk ((((s.data.dropWhile isJsWhiteSpace).reverse).dropWhile isJsWhiteSpace).reverse)

/-- The method `s.split(sep)` for a one-character separator, on the list of characters: the pieces
between the occurrences of `sep` (always at least one piece). -/
def splitChars (sep : Char) : List Char → List (List Char)
  | [] => [[]]
  | c :: cs =>
    if c = sep then [] :: splitChars sep cs
    else
      match splitChars sep cs with
      | [] => [[c]]
      | piece :: pieces => (c :: piece) :: pieces

/-- The method `s.split(sep)` for a one-character separator. -/
def jsSplit (sep : Char) (s : String) : List String :=
  (splitChars sep s.data).map String.mk

/-- The method `xs.join(sep)`. -/
def jsJoin (sep : String) : List String → String
  | [] => ""
  | [x] => x
  | x :: y :: rest => x ++ sep ++ jsJoin sep (y :: rest)

/-! ## Data model -/

/-- The object pushed onto `jobs` at line 63: `{ jobId, title, link, skills }`.
`jobId` is `link.split('~')[1]`, which is `undefined` (`none`) when there is no second piece. -/
structure JobPosting where
  jobId : Option String
  title : String
  link : String
  skills : List String
  deriving DecidableEq, Repr

/-- What cheerio yields for one `.up-card-section` element:
`titleText` is `$(element).find('h3[data-test="job-title"]').text()`,
`href` is `$(element).find('h3[data-test="job-title"] a').attr('href')` (`undefined` when
there is no such anchor or it has no `href`),
`skillTexts` are the texts of the `span[data-test="attr-item"]` elements, in order. -/
structure Container where
  titleText : String
  href : Option String
  skillTexts : List String
  deriving DecidableEq, Repr

/-- The constant of line 11. -/
def TAGS_TO_WATCH : List String :=
  ["Fullstack developer", "Nextjs developer", "React developer", "MERN developer"]

/-- The origin prefixed to every href at line 58. -/
def UPWORK_ORIGIN : String := "https://www.upwork.com"

/-- String concatenation with a possibly undefined right operand: `'x' + undefined` is
`'xundefined'`. -/
def concatMaybe (s : String) : Option String → String
  | some t => s ++ t
  | none => s ++ "undefined"

/-- Line 57. -/
def titleOf (element : Container) : String := jsTrim element.titleText

/-- Line 58. -/
def linkOf (element : Container) : String := concatMaybe UPWORK_ORIGIN element.href

/-- Line 59 as a function of the link: `link.split('~')[1]`. -/
def jobIdOfLink (link : String) : Option String := (jsSplit '~' link)[1]?

/-- Line 60. -/
def skillsOf (element : Container) : List String := element.skillTexts.map jsTrim

/-- The object built from one container (lines 57 to 60 and 63). -/
def postingOf (element : Container) : JobPosting :=
  { jobId := jobIdOfLink (linkOf element)
    title := titleOf element
    link := linkOf element
    skills := skillsOf element }

/-- The test of line 62: `skills.some(skill => watch.includes(skill))`. -/
def matchesWatch (watch : List String) (skills : List String) : Bool :=
  skills.any (fun skill => watch.contains skill)

/-- One round of the `.each` callback (lines 56 to 65): `jobs` is the array being filled. -/
def eachStep (watch : List String) (jobs : List JobPosting) (element : Container) :
    List JobPosting :=
  let title := titleOf element
  let link := linkOf element
  let jobId := jobIdOfLink link
  let skills := skillsOf element
  if matchesWatch watch skills then
    jobs ++ [{ jobId := jobId, title := title, link := link, skills := skills }]
  else jobs

/-- Lines 54 to 67: the array `jobs` after the `.each` loop over the containers in
document order. The watch-list is a parameter; the program passes `TAGS_TO_WATCH`. -/
def extractJobs (watch : List String) (containers : List Container) : List JobPosting :=
  containers.foldl (eachStep watch) []

/-! ## The world outside the process -/

/-- Error values thrown by the external calls; only their identity matters. -/
abbrev Err := String

/-- What one pass observes and does, in program order. -/
inductive Event where
  /-- A `console.log` line. -/
  | log (msg : String)
  /-- A `console.error` line. -/
  | logError (msg : String) (error : Err)
  /-- A call of `http.get(UPWORK_URL, ...)` and whether it threw. -/
  | httpGet (failure : Option Err)
  /-- A call of `jobsCollection.findOne` with the `jobId` of the query, and whether it threw. -/
  | findOne (jobId : Option String) (failure : Option Err)
  /-- A call of `jobsCollection.insertOne(job)` and whether it threw. -/
  | insertOne (job : JobPosting) (failure : Option Err)
  /-- An invocation of `sendEmailNotification(jobs)`. -/
  | notify (jobs : List JobPosting)
  /-- A call of `transporter.sendMail` with the rendered `html`, and whether it threw. -/
  | sendMail (html : String) (failure : Option Err)
  deriving DecidableEq, Repr

/-- The part of the environment the program does not change: the containers of the
document the site serves, and for the `n`-th external call made (counted from 0) whether it
succeeds (`none`) or throws (`some e`). -/
structure Env where
  page : List Container
  outcome : Nat → Option Err

/-- The mutable state: the documents of `jobsCollection` in insertion order, the number of
external calls made so far, and the trace of events. -/
structure World where
  store : List JobPosting
  calls : Nat
  trace : List Event
  deriving DecidableEq, Repr

/-- An `async` function body: it reads the environment, changes the world, and either
returns a value or throws. Effects made before a throw persist. -/
def M (α : Type) : Type := Env → World → Except Err α × World

/-- Returning a value. -/
def M.pure {α : Type} (a : α) : M α := fun _ w => (.ok a, w)

/-- Sequencing (`await`): a throw in the first part skips the rest. -/
def M.bind {α β : Type} (m : M α) (f : α → M β) : M β := fun env w =>
  match m env w with
  | (.ok a, w1) => f a env w1
  | (.error e, w1) => (.error e, w1)

instance : Monad M where
  pure := M.pure
  bind := M.bind

/-- The statement `try { body } catch (error) { handler }`. -/
def attempt {α : Type} (body : M α) (handler : Err → M α) : M α := fun env w =>
  match body env w with
  | (.ok a, w1) => (.ok a, w1)
  | (.error e, w1) => handler e env w1

/-- Appending one event to the trace. -/
def World.emit (w : World) (ev : Event) : World := { w with trace := w.trace ++ [ev] }

/-- Counting one external call and recording its event. -/
def World.called (w : World) (ev : Event) : World :=
  { w with calls := w.calls + 1, trace := w.trace ++ [ev] }

/-- The call `console.log(msg)`. -/
def consoleLog (msg : String) : M Unit := fun _ w => (.ok (), w.emit (.log msg))

/-- The call `console.error(msg, error)`. -/
def consoleError (msg : String) (error : Err) : M Unit := fun _ w =>
  (.ok (), w.emit (.logError msg error))

/-- Lines 48 to 56: `http.get`, `cheerio.load` and the selection of the `.up-card-section`
elements. It throws when the request fails. -/
def httpGetContainers : M (List Container) := fun env w =>
  match env.outcome w.calls with
  | some e => (.error e, w.called (.httpGet (some e)))
  | none => (.ok env.page, w.called (.httpGet none))

/-- The call `jobsCollection.findOne({ jobId })`: the first stored document with that
`jobId`, or `null`. It throws when the lookup fails. -/
def findOne (jobId : Option String) : M (Option JobPosting) := fun env w =>
  match env.outcome w.calls with
  | some e => (.error e, w.called (.findOne jobId (some e)))
  | none => (.ok (w.store.find? (fun doc => doc.jobId == jobId)), w.called (.findOne jobId none))

/-- The call `jobsCollection.insertOne(job)`: the document is appended. It throws when the
write fails, and then the collection is unchanged. -/
def insertOne (job : JobPosting) : M Unit := fun env w =>
  match env.outcome w.calls with
  | some e => (.error e, w.called (.insertOne job (some e)))
  | none => (.ok (), { (w.called (.insertOne job none)) with store := w.store ++ [job] })

/-! ## The pipeline -/

/-- Lines 46 to 72. -/
def scrapeUpworkJobs (watch : List String) : M (List JobPosting) :=
  attempt
    (do
      let containers ← httpGetContainers
      pure (extractJobs watch containers))
    (fun error => do
      consoleError "Error scraping Upwork:" error
      pure [])

/-- The `for (const job of jobs)` loop of lines 76 to 82; `newJobs` is the array being
filled. -/
def filterNewJobsLoop : List JobPosting → List JobPosting → M (List JobPosting)
  | [], newJobs => pure newJobs
  | job :: rest, newJobs => do
    let existingJob ← findOne job.jobId
    if existingJob.isNone then
      insertOne job
      filterNewJobsLoop rest (newJobs ++ [job])
    else
      filterNewJobsLoop rest newJobs

/-- Lines 74 to 84. -/
def filterNewJobs (jobs : List JobPosting) : M (List JobPosting) :=
  filterNewJobsLoop jobs []

/-- The inner template of lines 93 to 100, for one job. -/
def renderJob (job : JobPosting) : String :=
  "\n            <div>\n            <h2>" ++ job.title ++
  "</h2>\n            <p>Skills: " ++ jsJoin ", " job.skills ++
  "</p>\n            <a href=\"" ++ job.link ++
  "\">View Job</a>\n            </div>\n            <hr>\n        "

/-- The `html` field of `mailOptions` (lines 91 to 101). -/
def renderHtml (jobs : List JobPosting) : String :=
  "\n        <h1>New Upwork Jobs Matching Your Criteria</h1>\n        " ++
  jsJoin "" (jobs.map renderJob) ++ "\n        "

/-- The call `transporter.sendMail(mailOptions)`. It throws when the dispatch fails. -/
def sendMail (html : String) : M Unit := fun env w =>
  match env.outcome w.calls with
  | some e => (.error e, w.called (.sendMail html (some e)))
  | none => (.ok (), w.called (.sendMail html none))

/-- Lines 86 to 110. The first event records the invocation and its argument. -/
def sendEmailNotification (jobs : List JobPosting) : M Unit := do
  (fun _ w => (.ok (), w.emit (.notify jobs)) : M Unit)
  let html := renderHtml jobs
  attempt
    (do
      sendMail html
      consoleLog "Email notification sent successfully")
    (fun error => consoleError "Error sending email notification:" error)

/-- Lines 112 to 126. -/
def checkForNewJobs : M Unit := do
  consoleLog "Checking for new jobs..."
  attempt
    (do
      let scrapedJobs ← scrapeUpworkJobs TAGS_TO_WATCH
      let newJobs ← filterNewJobs scrapedJobs
      if newJobs.length > 0 then
        consoleLog ("Found " ++ toString newJobs.length ++ " new job(s)")
        sendEmailNotification newJobs
      else
        consoleLog "No new jobs found")
    (fun error => consoleError "Error checking for new jobs:" error)

/-! ## Observations on traces and stores -/

/-- The `jobId`s of a list of postings or documents. -/
def idsOf (jobs : List JobPosting) : List (Option String) := jobs.map (fun job => job.jobId)

/-- The arguments of the invocations of `sendEmailNotification` in a trace. -/
def notifyCalls (trace : List Event) : List (List JobPosting) :=
  trace.filterMap (fun ev => match ev with
    | .notify jobs => some jobs
    | _ => none)

/-- The documents written by the successful `insertOne` calls in a trace. -/
def insertedJobs (trace : List Event) : List JobPosting :=
  trace.filterMap (fun ev => match ev with
    | .insertOne job none => some job
    | _ => none)

/-- The classification of the dedup component in the words of the specification: the
candidates, in input order, whose id is not in the initial store and does not occur at an
earlier position of the batch. -/
def newCandidates (store : List JobPosting) (jobs : List JobPosting) : List JobPosting :=
  (jobs.enum.filter (fun ip =>
      decide (ip.2.jobId ∉ idsOf store) && decide (ip.2.jobId ∉ idsOf (jobs.take ip.1)))).map
    Prod.snd

/-- An environment in which no external call fails. -/
def Env.reliable (env : Env) : Prop := ∀ n, env.outcome n = none

/-- The world after a successful lookup of `jobId`. -/
def World.looked (w : World) (jobId : Option String) : World :=
  w.called (.findOne jobId none)

/-- The world after a successful lookup and insertion of `job`. -/
def World.inserted (w : World) (job : JobPosting) : World :=
  { ((w.looked job.jobId).called (.insertOne job none)) with store := w.store ++ [job] }

/-- The result of the dedup loop by recursion on the batch, with the store as it grows:
an auxiliary description used in the proofs. -/
def freshRec (store : List JobPosting) : List JobPosting → List JobPosting
  | [] => []
  | job :: rest =>
    if job.jobId ∈ idsOf store then freshRec store rest
    else job :: freshRec (store ++ [job]) rest

/-! ## The scheduler (lines 128 to 138) -/

/-- What can happen to the scheduler: `main` reaches its initial check (after having
registered the cron job), the cron job fires, a running pass settles. -/
inductive SchedEvent where
  | startupCheck
  | cronTick
  | passFinished
  deriving DecidableEq, Repr

/-- The scheduler state: whether `main` has registered the cron job and started the
initial check, and the number of calls of `checkForNewJobs` that have not settled. -/
structure SchedState where
  registered : Bool
  inFlight : Nat
  deriving DecidableEq, Repr

/-- The state at process start. -/
def SchedState.init : SchedState := { registered := false, inFlight := 0 }

/-- One step. `cron.schedule('*/30 * * * *', checkForNewJobs)` calls `checkForNewJobs` on
every tick and `main` calls it once; neither looks at whether a pass is running. -/
def schedStep (s : SchedState) : SchedEvent → Option SchedState
  | .startupCheck =>
    if s.registered then none else some { registered := true, inFlight := s.inFlight + 1 }
  | .cronTick =>
    if s.registered then some { s with inFlight := s.inFlight + 1 } else none
  | .passFinished =>
    if 0 < s.inFlight then some { s with inFlight := s.inFlight - 1 } else none

/-- Running a sequence of events; `none` when an event is not enabled. -/
def schedRun (s : SchedState) : List SchedEvent → Option SchedState
  | [] => some s
  | ev :: rest =>
    match schedStep s ev with
    | some s1 => schedRun s1 rest
    | none => none

/-- A schedule in which every trigger of a pass arrives when no pass is in flight. -/
def serialized (s : SchedState) : List SchedEvent → Bool
  | [] => true
  | ev :: rest =>
    (ev == .passFinished || s.inFlight == 0) &&
    match schedStep s ev with
    | some s1 => serialized s1 rest
    | none => true

/-! ## Lemmas on the extraction loop -/

theorem foldl_eachStep (watch : List String) (containers : List Container)
    (jobs : List JobPosting) :
    containers.foldl (eachStep watch) jobs =
      jobs ++ (containers.filter (fun c => matchesWatch watch (skillsOf c))).map postingOf := by
  induction containers generalizing jobs with
  | nil => simp
  | cons c cs ih =>
    simp only [List.foldl_cons, ih, List.filter_cons]
    by_cases h : matchesWatch watch (skillsOf c) = true
    · simp [eachStep, h, postingOf]
    · simp [eachStep, h]

theorem extractJobs_eq (watch : List String) (containers : List Container) :
    extractJobs watch containers =
      (containers.filter (fun c => matchesWatch watch (skillsOf c))).map postingOf := by
  simp [extractJobs, foldl_eachStep]

theorem matchesWatch_iff (watch skills : List String) :
    matchesWatch watch skills = true ↔ ∃ skill ∈ skills, skill ∈ watch := by
  simp [matchesWatch, List.any_eq_true]

theorem mem_extractJobs (watch : List String) (containers : List Container) (p : JobPosting) :
    p ∈ extractJobs watch containers ↔
      ∃ c ∈ containers, matchesWatch watch (skillsOf c) = true ∧ postingOf c = p := by
  simp [extractJobs_eq, List.mem_map, List.mem_filter, and_assoc]

theorem scrapeUpworkJobs_ok (watch : List String) (env : Env) (w : World)
    (h : env.outcome w.calls = none) :
    scrapeUpworkJobs watch env w =
      (.ok (extractJobs watch env.page), w.called (.httpGet none)) := by
  simp [scrapeUpworkJobs, attempt, httpGetContainers, h, bind, M.bind, pure, M.pure]

theorem scrapeUpworkJobs_fail (watch : List String) (env : Env) (w : World) (e : Err)
    (h : env.outcome w.calls = some e) :
    scrapeUpworkJobs watch env w =
      (.ok [], (w.called (.httpGet (some e))).emit (.logError "Error scraping Upwork:" e)) := by
  simp [scrapeUpworkJobs, attempt, httpGetContainers, h, bind, M.bind, pure, M.pure,
    consoleError]

/-! ## Lemmas on `split` -/

theorem splitChars_ne_nil (sep : Char) (l : List Char) : splitChars sep l ≠ [] := by
  cases l with
  | nil => simp [splitChars]
  | cons c cs =>
    by_cases h : c = sep
    · simp [splitChars, h]
    · simp only [splitChars, h, if_false]
      split <;> simp

theorem splitChars_not_mem (sep : Char) (l : List Char) (h : sep ∉ l) :
    splitChars sep l = [l] := by
  induction l with
  | nil => simp [splitChars]
  | cons c cs ih =>
    simp only [List.mem_cons, not_or] at h
    have hc : c ≠ sep := fun hcs => h.1 hcs.symm
    simp [splitChars, hc, ih h.2]

theorem splitChars_append_sep (sep : Char) (a b : List Char) (h : sep ∉ a) :
    splitChars sep (a ++ sep :: b) = a :: splitChars sep b := by
  induction a with
  | nil => simp [splitChars]
  | cons c cs ih =>
    simp only [List.mem_cons, not_or] at h
    have hc : c ≠ sep := fun hcs => h.1 hcs.symm
    simp [splitChars, hc, ih h.2]

theorem splitChars_head (sep : Char) (b : List Char) :
    (splitChars sep b)[0]? = some (b.takeWhile (fun c => c != sep)) := by
  induction b with
  | nil => simp [splitChars]
  | cons c cs ih =>
    by_cases hc : c = sep
    · simp [splitChars, hc]
    · simp only [splitChars, hc, if_false]
      split
      · next hnil => exact absurd hnil (splitChars_ne_nil sep cs)
      · next piece pieces hsplit =>
        simp [hsplit] at ih
        simp [List.takeWhile_cons, hc, ih]

theorem jobIdOfLink_no_tilde (link : String) (h : '~' ∉ link.data) :
    jobIdOfLink link = none := by
  simp [jobIdOfLink, jsSplit, splitChars_not_mem _ _ h]

theorem jobIdOfLink_tilde (link : String) (a b : List Char) (hlink : link.data = a ++ '~' :: b)
    (h : '~' ∉ a) :
    jobIdOfLink link = some (String.mk (b.takeWhile (fun c => c != '~'))) := by
  have h0 := splitChars_head '~' b
  simp only [jobIdOfLink, jsSplit, hlink, splitChars_append_sep _ _ _ h, List.map_cons]
  cases hs : splitChars '~' b with
  | nil => exact absurd hs (splitChars_ne_nil _ _)
  | cons piece pieces =>
    simp [hs] at h0
    simp [h0]

/-! ## Claims on the extraction -/

/-- C1. Interest filter characterisation: when the fetch succeeds, `scrapeUpworkJobs` returns
the postings of exactly the containers one of whose skills is equal to a member of the
watch-list, in document order, each with the skills of its container; an empty watch-list
or an empty page gives no posting; and on containers with skills `["Java"]`,
`["React developer"]`, `["Nextjs developer", "Java"]` and the watch-list
`["React developer", "Nextjs developer"]` the output is the postings of the second and the
third container. -/
theorem interest_filter_characterisation (watch : List String) (env : Env) (w : World)
    (hfetch : env.outcome w.calls = none) :
    ((scrapeUpworkJobs watch env w).1 =
        .ok ((env.page.filter
          (fun c => decide (∃ skill ∈ skillsOf c, skill ∈ watch))).map postingOf)) ∧
    (∀ c : Container, (postingOf c).skills = skillsOf c) ∧
    (extractJobs watch env.page).Sublist (env.page.map postingOf) ∧
    (watch = [] → (scrapeUpworkJobs watch env w).1 = .ok []) ∧
    (env.page = [] → (scrapeUpworkJobs watch env w).1 = .ok []) ∧
    (∀ c1 c2 c3 : Container, skillsOf c1 = ["Java"] → skillsOf c2 = ["React developer"] →
      skillsOf c3 = ["Nextjs developer", "Java"] → env.page = [c1, c2, c3] →
      watch = ["React developer", "Nextjs developer"] →
      (scrapeUpworkJobs watch env w).1 = .ok [postingOf c2, postingOf c3]) := by
  have hfilter : (fun c => matchesWatch watch (skillsOf c)) =
      (fun c => decide (∃ skill ∈ skillsOf c, skill ∈ watch)) := by
    funext c
    rw [Bool.eq_iff_iff, matchesWatch_iff]
    simp
  rw [scrapeUpworkJobs_ok watch env w hfetch]
  refine ⟨?_, fun _ => rfl, ?_, ?_, ?_, ?_⟩
  · simp only [extractJobs_eq, hfilter]
  · rw [extractJobs_eq]
    exact (List.filter_sublist _).map postingOf
  · intro hw
    simp [extractJobs_eq, hw, matchesWatch]
  · intro hp
    simp [extractJobs_eq, hp]
  · intro c1 c2 c3 h1 h2 h3 hp hw
    simp [extractJobs_eq, hp, hw, List.filter_cons, matchesWatch, h1, h2, h3]

/-- The three-container scenario of C1 on a concrete page. -/
theorem interest_filter_characterisation_witness :
    (scrapeUpworkJobs ["React developer", "Nextjs developer"]
        { page := [⟨"A", some "/jobs/a_~01", ["Java"]⟩,
                   ⟨"B", some "/jobs/b_~02", ["React developer"]⟩,
                   ⟨"C", some "/jobs/c_~03", ["Nextjs developer", "Java"]⟩],
          outcome := fun _ => none }
        { store := [], calls := 0, trace := [] }).1 =
      .ok [postingOf ⟨"B", some "/jobs/b_~02", ["React developer"]⟩,
           postingOf ⟨"C", some "/jobs/c_~03", ["Nextjs developer", "Java"]⟩] :=
  (interest_filter_characterisation ["React developer", "Nextjs developer"]
    { page := [⟨"A", some "/jobs/a_~01", ["Java"]⟩,
               ⟨"B", some "/jobs/b_~02", ["React developer"]⟩,
               ⟨"C", some "/jobs/c_~03", ["Nextjs developer", "Java"]⟩],
      outcome := fun _ => none }
    { store := [], calls := 0, trace := [] } rfl).2.2.2.2.2
    ⟨"A", some "/jobs/a_~01", ["Java"]⟩ ⟨"B", some "/jobs/b_~02", ["React developer"]⟩
    ⟨"C", some "/jobs/c_~03", ["Nextjs developer", "Java"]⟩
    (by decide) (by decide) (by decide) rfl rfl

/-- C7, as stated, fails: a container with an empty title and no href whose skills meet the
watch-list is emitted, with the empty title and the link `origin ++ "undefined"`. -/
theorem skip_unusable_counterexample :
    extractJobs TAGS_TO_WATCH
        [{ titleText := "  ", href := none, skillTexts := ["React developer"] }] =
      [{ jobId := none, title := "", link := "https://www.upwork.comundefined",
         skills := ["React developer"] }] := by
  decide

/-- C7, amended: emission depends on the skills alone. Every container whose skills meet
the watch-list is emitted, whatever its title text and href; every emitted posting comes from
such a container, its title is the trimmed title text (possibly empty), and when the anchor
has an href its link is the site origin followed by that href. -/
theorem emission_ignores_title_and_link (watch : List String) (containers : List Container) :
    (∀ c ∈ containers, matchesWatch watch (skillsOf c) = true →
      postingOf c ∈ extractJobs watch containers) ∧
    (∀ p ∈ extractJobs watch containers, ∃ c ∈ containers,
      matchesWatch watch (skillsOf c) = true ∧ p = postingOf c ∧
      p.title = jsTrim c.titleText ∧
      (∀ href, c.href = some href → p.link = UPWORK_ORIGIN ++ href)) := by
  constructor
  · intro c hc hm
    exact (mem_extractJobs watch containers _).2 ⟨c, hc, hm, rfl⟩
  · intro p hp
    obtain ⟨c, hc, hm, rfl⟩ := (mem_extractJobs watch containers p).1 hp
    refine ⟨c, hc, hm, rfl, rfl, ?_⟩
    intro href hh
    simp [postingOf, linkOf, hh, concatMaybe]

/-- C8, as stated, fails: a posting whose href has no `~` is emitted with an undefined id,
and one whose href ends in `~` with the empty string as id. -/
theorem posting_id_counterexample :
    (extractJobs TAGS_TO_WATCH
        [{ titleText := "Build a site", href := some "/jobs/build-a-site",
           skillTexts := ["React developer"] },
         { titleText := "Fix a site", href := some "/jobs/fix-a-site_~",
           skillTexts := ["MERN developer"] }]).map (fun p => p.jobId) = [none, some ""] := by
  decide

/-- C8, amended: the id of an emitted posting is a function of its link alone, namely
`link.split('~')[1]`: it is undefined when the link has no `~`, otherwise it is the text
between the first `~` and the next `~` (or the end of the link), and it is a non-empty
string when the first `~` is followed by a character other than `~`. -/
theorem posting_id_from_link (watch : List String) (containers : List Container)
    (p : JobPosting) (hp : p ∈ extractJobs watch containers) :
    p.jobId = jobIdOfLink p.link ∧
    (∀ q ∈ extractJobs watch containers, q.link = p.link → q.jobId = p.jobId) ∧
    ('~' ∉ p.link.data → p.jobId = none) ∧
    (∀ a b : List Char, p.link.data = a ++ '~' :: b → '~' ∉ a →
      p.jobId = some (String.mk (b.takeWhile (fun c => c != '~')))) ∧
    (∀ (a b : List Char) (c : Char), p.link.data = a ++ '~' :: c :: b → '~' ∉ a → c ≠ '~' →
      ∃ id, p.jobId = some id ∧ id ≠ "") := by
  have hid : ∀ q ∈ extractJobs watch containers, q.jobId = jobIdOfLink q.link := by
    intro q hq
    obtain ⟨c, _, _, rfl⟩ := (mem_extractJobs watch containers q).1 hq
    rfl
  refine ⟨hid p hp, ?_, ?_, ?_, ?_⟩
  · intro q hq hl
    rw [hid q hq, hid p hp, hl]
  · intro h
    rw [hid p hp, jobIdOfLink_no_tilde _ h]
  · intro a b hl ha
    rw [hid p hp, jobIdOfLink_tilde _ a b hl ha]
  · intro a b c hl ha hc
    refine ⟨_, by rw [hid p hp, jobIdOfLink_tilde _ a (c :: b) hl ha], ?_⟩
    intro hempty
    have := congrArg String.data hempty
    simp [List.takeWhile_cons, hc] at this

/-- The id of a posting with a well-formed Upwork link. -/
theorem posting_id_from_link_witness :
    (postingOf ⟨"B", some "/jobs/b_~02", ["React developer"]⟩).jobId = some "02" :=
  ((posting_id_from_link TAGS_TO_WATCH [⟨"B", some "/jobs/b_~02", ["React developer"]⟩]
    (postingOf ⟨"B", some "/jobs/b_~02", ["React developer"]⟩) (by decide)).2.2.2.1
    "https://www.upwork.com/jobs/b_".data "02".data (by decide) (by decide)).trans (by decide)

/-! ## Lemmas on the dedup loop -/

theorem find_isNone_iff (store : List JobPosting) (jobId : Option String) :
    (store.find? (fun doc => doc.jobId == jobId)).isNone = true ↔ jobId ∉ idsOf store := by
  rw [Option.isNone_iff_eq_none, List.find?_eq_none]
  simp only [idsOf, List.mem_map, not_exists, not_and, beq_iff_eq]

theorem loop_cons_lookup_fail (env : Env) (w : World) (job : JobPosting)
    (rest acc : List JobPosting) (e : Err) (h : env.outcome w.calls = some e) :
    filterNewJobsLoop (job :: rest) acc env w =
      (.error e, w.called (.findOne job.jobId (some e))) := by
  simp [filterNewJobsLoop, bind, M.bind, findOne, h]

theorem loop_cons_seen (env : Env) (w : World) (job : JobPosting)
    (rest acc : List JobPosting) (h : env.outcome w.calls = none)
    (hseen : job.jobId ∈ idsOf w.store) :
    filterNewJobsLoop (job :: rest) acc env w =
      filterNewJobsLoop rest acc env (w.looked job.jobId) := by
  have hf : (w.store.find? (fun doc => doc.jobId == job.jobId)).isNone = false := by
    rw [Bool.eq_false_iff]
    intro hn
    exact ((find_isNone_iff _ _).1 hn) hseen
  simp [filterNewJobsLoop, bind, M.bind, findOne, h, hf, World.looked]

theorem loop_cons_write_fail (env : Env) (w : World) (job : JobPosting)
    (rest acc : List JobPosting) (e : Err) (h : env.outcome w.calls = none)
    (hnew : job.jobId ∉ idsOf w.store) (hw : env.outcome (w.calls + 1) = some e) :
    filterNewJobsLoop (job :: rest) acc env w =
      (.error e, (w.looked job.jobId).called (.insertOne job (some e))) := by
  have hf := (find_isNone_iff _ _).2 hnew
  simp [filterNewJobsLoop, bind, M.bind, findOne, insertOne, h, hf, World.looked, World.called,
    hw]

theorem loop_cons_new (env : Env) (w : World) (job : JobPosting)
    (rest acc : List JobPosting) (h : env.outcome w.calls = none)
    (hnew : job.jobId ∉ idsOf w.store) (hw : env.outcome (w.calls + 1) = none) :
    filterNewJobsLoop (job :: rest) acc env w =
      filterNewJobsLoop rest (acc ++ [job]) env (w.inserted job) := by
  have hf := (find_isNone_iff _ _).2 hnew
  simp [filterNewJobsLoop, bind, M.bind, findOne, insertOne, h, hf, World.looked, World.called,
    hw, World.inserted]

theorem loop_nil (env : Env) (w : World) (acc : List JobPosting) :
    filterNewJobsLoop [] acc env w = (.ok acc, w) := by
  simp [filterNewJobsLoop, pure, M.pure]

theorem loop_acc (env : Env) (jobs : List JobPosting) (acc : List JobPosting) (w : World) :
    filterNewJobsLoop jobs acc env w =
      ((filterNewJobsLoop jobs [] env w).1.map (fun news => acc ++ news),
        (filterNewJobsLoop jobs [] env w).2) := by
  induction jobs generalizing acc w with
  | nil => simp [loop_nil, Except.map]
  | cons job rest ih =>
    cases h0 : env.outcome w.calls with
    | some e => simp [loop_cons_lookup_fail env w job rest _ e h0, Except.map]
    | none =>
      by_cases hs : job.jobId ∈ idsOf w.store
      · rw [loop_cons_seen env w job rest _ h0 hs, loop_cons_seen env w job rest _ h0 hs]
        exact ih acc _
      · cases h1 : env.outcome (w.calls + 1) with
        | some e => simp [loop_cons_write_fail env w job rest _ e h0 hs h1, Except.map]
        | none =>
          rw [loop_cons_new env w job rest _ h0 hs h1, loop_cons_new env w job rest _ h0 hs h1]
          rw [ih (acc ++ [job]), ih ([] ++ [job])]
          cases (filterNewJobsLoop rest [] env (w.inserted job)).1 <;> simp [Except.map]

theorem loop_append (env : Env) (pre rest : List JobPosting) (acc news : List JobPosting)
    (w w1 : World) (h : filterNewJobsLoop pre acc env w = (.ok news, w1)) :
    filterNewJobsLoop (pre ++ rest) acc env w = filterNewJobsLoop rest news env w1 := by
  induction pre generalizing acc w with
  | nil =>
    rw [loop_nil] at h
    simp only [Prod.mk.injEq, Except.ok.injEq] at h
    simp [h.1, h.2]
  | cons job pre ih =>
    cases h0 : env.outcome w.calls with
    | some e => simp [loop_cons_lookup_fail env w job pre _ e h0] at h
    | none =>
      by_cases hs : job.jobId ∈ idsOf w.store
      · rw [loop_cons_seen env w job pre _ h0 hs] at h
        rw [List.cons_append, loop_cons_seen env w job _ _ h0 hs]
        exact ih _ _ h
      · cases h1 : env.outcome (w.calls + 1) with
        | some e => simp [loop_cons_write_fail env w job pre _ e h0 hs h1] at h
        | none =>
          rw [loop_cons_new env w job pre _ h0 hs h1] at h
          rw [List.cons_append, loop_cons_new env w job _ _ h0 hs h1]
          exact ih _ _ h

theorem loop_ok_spec (env : Env) (jobs : List JobPosting) (w w1 : World)
    (news : List JobPosting) (h : filterNewJobsLoop jobs [] env w = (.ok news, w1)) :
    news = freshRec w.store jobs ∧ w1.store = w.store ++ news := by
  induction jobs generalizing w w1 news with
  | nil =>
    rw [loop_nil] at h
    simp only [Prod.mk.injEq, Except.ok.injEq] at h
    simp [← h.1, ← h.2, freshRec]
  | cons job rest ih =>
    cases h0 : env.outcome w.calls with
    | some e => simp [loop_cons_lookup_fail env w job rest _ e h0] at h
    | none =>
      by_cases hs : job.jobId ∈ idsOf w.store
      · rw [loop_cons_seen env w job rest _ h0 hs] at h
        have := ih _ _ _ h
        simpa [freshRec, hs, World.looked, World.called] using this
      · cases h1 : env.outcome (w.calls + 1) with
        | some e => simp [loop_cons_write_fail env w job rest _ e h0 hs h1] at h
        | none =>
          rw [loop_cons_new env w job rest _ h0 hs h1, loop_acc] at h
          cases hr : filterNewJobsLoop rest [] env (w.inserted job) with
          | mk res w2 =>
            rw [hr] at h
            cases res with
            | error e => simp [Except.map] at h
            | ok news2 =>
              simp only [Except.map, Prod.mk.injEq, Except.ok.injEq] at h
              have := ih _ _ _ hr
              obtain ⟨h2a, h2b⟩ := this
              simp only [World.inserted] at h2a h2b
              refine ⟨?_, ?_⟩
              · rw [← h.1, h2a]
                simp [freshRec, hs]
              · rw [← h.2, h2b, ← h.1]
                simp

theorem loop_reliable_ok (env : Env) (hrel : env.reliable) (jobs : List JobPosting)
    (w : World) : ∃ news w1, filterNewJobsLoop jobs [] env w = (.ok news, w1) := by
  induction jobs generalizing w with
  | nil => exact ⟨[], w, loop_nil env w []⟩
  | cons job rest ih =>
    by_cases hs : job.jobId ∈ idsOf w.store
    · rw [loop_cons_seen env w job rest _ (hrel _) hs]
      exact ih _
    · rw [loop_cons_new env w job rest _ (hrel _) hs (hrel _), loop_acc]
      obtain ⟨news, w1, h⟩ := ih (w.inserted job)
      exact ⟨[] ++ [job] ++ news, w1, by simp [h, Except.map]⟩

/-! ## The recursive description and the classification of the specification -/

theorem freshRec_eq_filter_from (store : List JobPosting) (rest pre seen : List JobPosting)
    (hseen : ∀ id, id ∈ idsOf seen ↔ id ∈ idsOf store ∨ id ∈ idsOf pre) :
    freshRec seen rest =
      ((List.enumFrom pre.length rest).filter (fun ip =>
        decide (ip.2.jobId ∉ idsOf store) &&
          decide (ip.2.jobId ∉ idsOf ((pre ++ rest).take ip.1)))).map Prod.snd := by
  induction rest generalizing pre seen with
  | nil => simp [freshRec]
  | cons job rest ih =>
    have hpre : pre ++ job :: rest = (pre ++ [job]) ++ rest := by simp
    have hlen : pre.length + 1 = (pre ++ [job]).length := by simp
    have hjob : job.jobId ∈ idsOf seen ↔
        ¬ (job.jobId ∉ idsOf store ∧ job.jobId ∉ idsOf pre) := by
      rw [hseen]; tauto
    rw [List.enumFrom_cons, List.filter_cons, hpre, hlen]
    by_cases hs : job.jobId ∈ idsOf seen
    · have hcond : (decide (job.jobId ∉ idsOf store) &&
          decide (job.jobId ∉ idsOf (((pre ++ [job]) ++ rest).take pre.length))) = false := by
        rw [Bool.eq_false_iff]
        intro hc
        simp only [Bool.and_eq_true, decide_eq_true_eq] at hc
        apply hjob.1 hs
        refine ⟨hc.1, ?_⟩
        have := hc.2
        simpa [List.take_append_eq_append_take] using this
      simp only [freshRec, hs, if_true, hcond]
      apply ih
      intro id
      rw [hseen]
      simp only [idsOf, List.map_append, List.mem_append, List.map_cons, List.map_nil,
        List.mem_singleton]
      constructor
      · rintro (h | h)
        · exact Or.inl h
        · exact Or.inr (Or.inl h)
      · rintro (h | h | h)
        · exact Or.inl h
        · exact Or.inr h
        · have := (hseen job.jobId).1 hs
          rw [h]
          simpa [idsOf] using this
    · have hcond : (decide (job.jobId ∉ idsOf store) &&
          decide (job.jobId ∉ idsOf (((pre ++ [job]) ++ rest).take pre.length))) = true := by
        have hn : job.jobId ∉ idsOf store ∧ job.jobId ∉ idsOf pre := by
          by_contra hcon
          exact hs (hjob.2 hcon)
        simp only [Bool.and_eq_true, decide_eq_true_eq]
        refine ⟨hn.1, ?_⟩
        simpa [List.take_append_eq_append_take] using hn.2
      simp only [freshRec, hs, if_false, hcond, if_true, List.map_cons]
      congr 1
      apply ih
      intro id
      simp only [idsOf, List.map_append, List.mem_append, List.map_cons, List.map_nil,
        List.mem_singleton]
      have := hseen id
      simp only [idsOf] at this
      rw [this]
      tauto

theorem freshRec_eq_newCandidates (store jobs : List JobPosting) :
    freshRec store jobs = newCandidates store jobs := by
  have := freshRec_eq_filter_from store jobs [] store (by simp [idsOf])
  simpa [newCandidates, List.enum] using this

theorem mem_ids_after (store jobs : List JobPosting) (id : Option String) :
    id ∈ idsOf (store ++ freshRec store jobs) ↔ id ∈ idsOf store ∨ id ∈ idsOf jobs := by
  induction jobs generalizing store with
  | nil => simp [freshRec, idsOf]
  | cons job rest ih =>
    by_cases hs : job.jobId ∈ idsOf store
    · simp only [freshRec, hs, if_true, ih]
      simp only [idsOf, List.map_cons, List.mem_cons]
      constructor
      · rintro (h | h)
        · exact Or.inl h
        · exact Or.inr (Or.inr h)
      · rintro (h | h | h)
        · exact Or.inl h
        · rw [h]; exact Or.inl hs
        · exact Or.inr h
    · have hcons : store ++ job :: freshRec (store ++ [job]) rest =
          (store ++ [job]) ++ freshRec (store ++ [job]) rest := by simp
      simp only [freshRec, hs, if_false, hcons, ih]
      simp only [idsOf, List.map_append, List.map_cons, List.map_nil, List.mem_append,
        List.mem_singleton, List.mem_cons]
      tauto

theorem freshRec_fresh (store jobs : List JobPosting) :
    (idsOf (freshRec store jobs)).Nodup ∧
      ∀ id ∈ idsOf (freshRec store jobs), id ∉ idsOf store := by
  induction jobs generalizing store with
  | nil => simp [freshRec, idsOf]
  | cons job rest ih =>
    by_cases hs : job.jobId ∈ idsOf store
    · simpa [freshRec, hs] using ih store
    · obtain ⟨h1, h2⟩ := ih (store ++ [job])
      simp only [freshRec, hs, if_false]
      constructor
      · simp only [idsOf, List.map_cons, List.nodup_cons]
        refine ⟨?_, h1⟩
        intro hmem
        have := h2 job.jobId hmem
        simp [idsOf] at this
      · intro id hid
        simp only [idsOf, List.map_cons, List.mem_cons] at hid
        rcases hid with h | h
        · rw [h]; exact hs
        · have := h2 id h
          intro hin
          apply this
          simp only [idsOf, List.map_append, List.mem_append]
          exact Or.inl hin

theorem nodup_ids_after (store jobs : List JobPosting) (h : (idsOf store).Nodup) :
    (idsOf (store ++ freshRec store jobs)).Nodup := by
  obtain ⟨h1, h2⟩ := freshRec_fresh store jobs
  simp only [idsOf, List.map_append]
  rw [List.nodup_append]
  refine ⟨h, h1, ?_⟩
  intro id hs hf
  exact h2 id hf hs

theorem freshRec_all_seen (store jobs : List JobPosting)
    (h : ∀ id ∈ idsOf jobs, id ∈ idsOf store) : freshRec store jobs = [] := by
  induction jobs with
  | nil => simp [freshRec]
  | cons job rest ih =>
    have hj : job.jobId ∈ idsOf store := h _ (by simp [idsOf])
    simp only [freshRec, hj, if_true]
    apply ih
    intro id hid
    apply h
    simp only [idsOf, List.map_cons, List.mem_cons]
    exact Or.inr hid

theorem newCandidates_sublist (store jobs : List JobPosting) :
    (newCandidates store jobs).Sublist jobs := by
  have h := fun p => (@List.filter_sublist _ p jobs.enum).map Prod.snd
  simp only [List.enum_map_snd] at h
  exact h _

theorem filterNewJobs_reliable (env : Env) (hrel : env.reliable) (w : World)
    (jobs : List JobPosting) :
    (filterNewJobs jobs env w).1 = .ok (freshRec w.store jobs) ∧
      (filterNewJobs jobs env w).2.store = w.store ++ freshRec w.store jobs := by
  obtain ⟨news, w1, h⟩ := loop_reliable_ok env hrel jobs w
  obtain ⟨h1, h2⟩ := loop_ok_spec env jobs w w1 news h
  simp only [filterNewJobs, h]
  exact ⟨by rw [h1], by rw [h2, h1]⟩

/-- What any run of the loop, failed or not, does to the world: the store grows by the new
candidates of some initial part of the batch, these are the documents of the successful
`insertOne` calls, and `sendEmailNotification` is not invoked. -/
theorem loop_effects (env : Env) (jobs acc : List JobPosting) (w : World) :
    ∃ k, (filterNewJobsLoop jobs acc env w).2.store = w.store ++ freshRec w.store (jobs.take k) ∧
      insertedJobs (filterNewJobsLoop jobs acc env w).2.trace =
        insertedJobs w.trace ++ freshRec w.store (jobs.take k) ∧
      notifyCalls (filterNewJobsLoop jobs acc env w).2.trace = notifyCalls w.trace := by
  induction jobs generalizing acc w with
  | nil => exact ⟨0, by simp [loop_nil, freshRec]⟩
  | cons job rest ih =>
    cases h0 : env.outcome w.calls with
    | some e =>
      exact ⟨0, by simp [loop_cons_lookup_fail env w job rest _ e h0, freshRec, World.called,
        insertedJobs, notifyCalls, List.filterMap_append]⟩
    | none =>
      by_cases hs : job.jobId ∈ idsOf w.store
      · obtain ⟨k, h1, h2, h3⟩ := ih acc (w.looked job.jobId)
        refine ⟨k + 1, ?_⟩
        rw [loop_cons_seen env w job rest _ h0 hs, h1, h2, h3]
        simp [freshRec, hs, World.looked, World.called, insertedJobs, notifyCalls,
          List.filterMap_append]
      · cases h1 : env.outcome (w.calls + 1) with
        | some e =>
          exact ⟨0, by simp [loop_cons_write_fail env w job rest _ e h0 hs h1, freshRec,
            World.called, World.looked, insertedJobs, notifyCalls, List.filterMap_append]⟩
        | none =>
          obtain ⟨k, h2, h3, h4⟩ := ih (acc ++ [job]) (w.inserted job)
          refine ⟨k + 1, ?_⟩
          rw [loop_cons_new env w job rest _ h0 hs h1, h2, h3, h4]
          simp [freshRec, hs, World.inserted, World.looked, World.called, insertedJobs,
            notifyCalls, List.filterMap_append]

/-! ## Claims on the dedup component -/

/-- C2. Reconcile classification: when no lookup and no write fails, `filterNewJobs` returns
exactly the candidates, in input order, whose id is neither in the initial store nor at an
earlier position of the batch, and afterwards the ids in the store are those of the initial
store and those of the batch. From an empty store, `[A, B]` with distinct ids returns
`[A, B]` and stores both, and `[A, C]` on the next pass returns `[C]`. -/
theorem reconcile_classification (env : Env) (hrel : env.reliable) (w : World)
    (jobs : List JobPosting) :
    (filterNewJobs jobs env w).1 = .ok (newCandidates w.store jobs) ∧
    (newCandidates w.store jobs).Sublist jobs ∧
    (filterNewJobs jobs env w).2.store = w.store ++ newCandidates w.store jobs ∧
    (∀ id, id ∈ idsOf (filterNewJobs jobs env w).2.store ↔
      id ∈ idsOf w.store ∨ id ∈ idsOf jobs) ∧
    (∀ A B C : JobPosting, A.jobId ≠ B.jobId → C.jobId ≠ A.jobId → C.jobId ≠ B.jobId →
      w.store = [] →
      (filterNewJobs [A, B] env w).1 = .ok [A, B] ∧
      (filterNewJobs [A, B] env w).2.store = [A, B] ∧
      (filterNewJobs [A, C] env (filterNewJobs [A, B] env w).2).1 = .ok [C]) := by
  obtain ⟨h1, h2⟩ := filterNewJobs_reliable env hrel w jobs
  refine ⟨?_, newCandidates_sublist _ _, ?_, ?_, ?_⟩
  · rw [h1, freshRec_eq_newCandidates]
  · rw [h2, freshRec_eq_newCandidates]
  · intro id
    rw [h2, mem_ids_after]
  · intro A B C hAB hCA hCB hstore
    obtain ⟨h3, h4⟩ := filterNewJobs_reliable env hrel w [A, B]
    have hfresh : freshRec w.store [A, B] = [A, B] := by
      simp [hstore, freshRec, idsOf, Ne.symm hAB]
    rw [hfresh] at h3 h4
    obtain ⟨h5, _⟩ := filterNewJobs_reliable env hrel (filterNewJobs [A, B] env w).2 [A, C]
    refine ⟨h3, by simpa [hstore] using h4, ?_⟩
    rw [h5, h4]
    simp [hstore, freshRec, idsOf, hCA, hCB]

/-- The two-pass scenario of C2 on concrete postings. -/
theorem reconcile_classification_witness :
    (filterNewJobs [⟨some "01", "A", "a~01", []⟩, ⟨some "02", "B", "b~02", []⟩]
        ⟨[], fun _ => none⟩ ⟨[], 0, []⟩).1 =
      .ok (newCandidates [] [⟨some "01", "A", "a~01", []⟩, ⟨some "02", "B", "b~02", []⟩]) :=
  (reconcile_classification ⟨[], fun _ => none⟩ (fun _ => rfl) ⟨[], 0, []⟩
    [⟨some "01", "A", "a~01", []⟩, ⟨some "02", "B", "b~02", []⟩]).1

/-- C3. Deduplication idempotence: a store with at most one record per id keeps that
property through `filterNewJobs`, for every batch and whatever fails; and when nothing fails,
the ids returned as new are pairwise distinct and absent from the initial store, and a second
run on the same batch returns the empty list and leaves the store unchanged. -/
theorem dedup_idempotent (env : Env) (w : World) (jobs : List JobPosting)
    (hnodup : (idsOf w.store).Nodup) :
    (idsOf (filterNewJobs jobs env w).2.store).Nodup ∧
    (env.reliable →
      (∃ news, (filterNewJobs jobs env w).1 = .ok news ∧ (idsOf news).Nodup ∧
        ∀ id ∈ idsOf news, id ∉ idsOf w.store) ∧
      (filterNewJobs jobs env (filterNewJobs jobs env w).2).1 = .ok [] ∧
      (filterNewJobs jobs env (filterNewJobs jobs env w).2).2.store =
        (filterNewJobs jobs env w).2.store) := by
  constructor
  · obtain ⟨k, hk, _, _⟩ := loop_effects env jobs [] w
    simp only [filterNewJobs, hk]
    exact nodup_ids_after _ _ hnodup
  · intro hrel
    obtain ⟨h1, h2⟩ := filterNewJobs_reliable env hrel w jobs
    obtain ⟨h3, h4⟩ := filterNewJobs_reliable env hrel (filterNewJobs jobs env w).2 jobs
    have hseen : freshRec (filterNewJobs jobs env w).2.store jobs = [] := by
      apply freshRec_all_seen
      intro id hid
      rw [h2, mem_ids_after]
      exact Or.inr hid
    refine ⟨⟨_, h1, freshRec_fresh _ _⟩, ?_, ?_⟩
    · rw [h3, hseen]
    · rw [h4, hseen, List.append_nil]

/-- A batch with the same id twice, run on an empty store. -/
theorem dedup_idempotent_witness :
    (idsOf (filterNewJobs [⟨some "01", "A", "a~01", []⟩, ⟨some "01", "A", "a~01", []⟩]
        ⟨[], fun _ => none⟩ ⟨[], 0, []⟩).2.store).Nodup :=
  (dedup_idempotent ⟨[], fun _ => none⟩ ⟨[], 0, []⟩
    [⟨some "01", "A", "a~01", []⟩, ⟨some "01", "A", "a~01", []⟩] (by simp [idsOf])).1

/-- C5. Persistence errors propagate and abort the batch: if the candidates before position
`k` are processed without failure, leaving the world `w1`, and then the lookup for the
candidate `c` at position `k` fails, or `c` is not in the store and its write fails, then
`filterNewJobs` fails with that error, the final world is `w1` followed by the failing call
alone (no call is made for a later candidate), and the store holds the initial records
followed by the new candidates among the positions before `k`. -/
theorem persistence_error_aborts (env : Env) (w w1 : World) (pre post news : List JobPosting)
    (c : JobPosting) (e : Err)
    (hpre : filterNewJobs pre env w = (.ok news, w1))
    (hfail : env.outcome w1.calls = some e ∨
      (env.outcome w1.calls = none ∧ c.jobId ∉ idsOf w1.store ∧
        env.outcome (w1.calls + 1) = some e)) :
    (filterNewJobs (pre ++ c :: post) env w).1 = .error e ∧
    ((filterNewJobs (pre ++ c :: post) env w).2 = w1.called (.findOne c.jobId (some e)) ∨
      (filterNewJobs (pre ++ c :: post) env w).2 =
        (w1.called (.findOne c.jobId none)).called (.insertOne c (some e))) ∧
    (filterNewJobs (pre ++ c :: post) env w).2.store = w.store ++ newCandidates w.store pre ∧
    news = newCandidates w.store pre := by
  simp only [filterNewJobs] at hpre ⊢
  obtain ⟨h1, h2⟩ := loop_ok_spec env pre w w1 news hpre
  rw [loop_append env pre (c :: post) [] news w w1 hpre]
  rw [freshRec_eq_newCandidates] at h1
  rcases hfail with hl | ⟨hl, hnew, hw⟩
  · rw [loop_cons_lookup_fail env w1 c post news e hl]
    exact ⟨rfl, Or.inl rfl, by simp [World.called, h2, h1], h1⟩
  · rw [loop_cons_write_fail env w1 c post news e hl hnew hw]
    exact ⟨rfl, Or.inr rfl, by simp [World.called, World.looked, h2, h1], h1⟩

/-- The lookup for the second of three candidates fails: the first stays recorded, the
third is never looked up. -/
theorem persistence_error_aborts_witness :
    (filterNewJobs ([⟨some "01", "A", "a~01", []⟩] ++
        ⟨some "02", "B", "b~02", []⟩ :: [⟨some "03", "C", "c~03", []⟩])
      ⟨[], fun n => if n = 2 then some "store down" else none⟩ ⟨[], 0, []⟩).1 =
      .error "store down" :=
  (persistence_error_aborts ⟨[], fun n => if n = 2 then some "store down" else none⟩
    ⟨[], 0, []⟩ (World.inserted ⟨[], 0, []⟩ ⟨some "01", "A", "a~01", []⟩)
    [⟨some "01", "A", "a~01", []⟩] [⟨some "03", "C", "c~03", []⟩]
    [⟨some "01", "A", "a~01", []⟩] ⟨some "02", "B", "b~02", []⟩ "store down"
    rfl (Or.inl rfl)).1

/-! ## Lemmas on one pass -/

theorem scrape_run (watch : List String) (env : Env) (w : World) :
    ∃ scraped ws, scrapeUpworkJobs watch env w = (.ok scraped, ws) ∧ ws.store = w.store ∧
      insertedJobs ws.trace = insertedJobs w.trace ∧
      notifyCalls ws.trace = notifyCalls w.trace := by
  cases h : env.outcome w.calls with
  | none =>
    exact ⟨_, _, scrapeUpworkJobs_ok watch env w h, by
      simp [World.called, insertedJobs, notifyCalls, List.filterMap_append]⟩
  | some e =>
    exact ⟨_, _, scrapeUpworkJobs_fail watch env w e h, by
      simp [World.called, World.emit, insertedJobs, notifyCalls, List.filterMap_append]⟩

theorem sendEmailNotification_ok (jobs : List JobPosting) (env : Env) (w : World)
    (h : env.outcome w.calls = none) :
    sendEmailNotification jobs env w =
      (.ok (), ((w.emit (.notify jobs)).called (.sendMail (renderHtml jobs) none)).emit
        (.log "Email notification sent successfully")) := by
  have h1 : env.outcome (w.emit (.notify jobs)).calls = none := h
  simp [sendEmailNotification, bind, M.bind, attempt, sendMail, h1, consoleLog]

theorem sendEmailNotification_fail (jobs : List JobPosting) (env : Env) (w : World) (e : Err)
    (h : env.outcome w.calls = some e) :
    sendEmailNotification jobs env w =
      (.ok (), ((w.emit (.notify jobs)).called (.sendMail (renderHtml jobs) (some e))).emit
        (.logError "Error sending email notification:" e)) := by
  have h1 : env.outcome (w.emit (.notify jobs)).calls = some e := h
  simp [sendEmailNotification, bind, M.bind, attempt, sendMail, h1, consoleError]

theorem send_run (jobs : List JobPosting) (env : Env) (w : World) :
    ∃ w1, sendEmailNotification jobs env w = (.ok (), w1) ∧ w1.store = w.store ∧
      insertedJobs w1.trace = insertedJobs w.trace ∧
      notifyCalls w1.trace = notifyCalls w.trace ++ [jobs] := by
  cases h : env.outcome w.calls with
  | none =>
    exact ⟨_, sendEmailNotification_ok jobs env w h, by
      simp [World.called, World.emit, insertedJobs, notifyCalls, List.filterMap_append]⟩
  | some e =>
    exact ⟨_, sendEmailNotification_fail jobs env w e h, by
      simp [World.called, World.emit, insertedJobs, notifyCalls, List.filterMap_append]⟩

theorem checkForNewJobs_eq (env : Env) (w : World) (scraped : List JobPosting) (ws : World)
    (hs : scrapeUpworkJobs TAGS_TO_WATCH env (w.emit (.log "Checking for new jobs...")) =
      (.ok scraped, ws)) :
    checkForNewJobs env w =
      match filterNewJobs scraped env ws with
      | (.error e, wf) => (.ok (), wf.emit (.logError "Error checking for new jobs:" e))
      | (.ok newJobs, wf) =>
        if newJobs.length > 0 then
          sendEmailNotification newJobs env
            (wf.emit (.log ("Found " ++ toString newJobs.length ++ " new job(s)")))
        else (.ok (), wf.emit (.log "No new jobs found")) := by
  simp only [checkForNewJobs, bind, M.bind, attempt, consoleLog, hs]
  cases hf : filterNewJobs scraped env ws with
  | mk res wf =>
    cases res with
    | error e => simp [consoleError]
    | ok newJobs =>
      simp only
      by_cases hlen : newJobs.length > 0
      · obtain ⟨w1, h1, -⟩ := send_run newJobs env
          (wf.emit (.log ("Found " ++ toString newJobs.length ++ " new job(s)")))
        simp only [hlen, if_true, M.bind, consoleLog, h1]
      · simp only [hlen, if_false, consoleLog]

theorem emit_store (w : World) (ev : Event) : (w.emit ev).store = w.store := rfl

theorem insertedJobs_emit_log (w : World) (msg : String) :
    insertedJobs (w.emit (.log msg)).trace = insertedJobs w.trace := by
  simp [World.emit, insertedJobs, List.filterMap_append]

theorem insertedJobs_emit_logError (w : World) (msg : String) (e : Err) :
    insertedJobs (w.emit (.logError msg e)).trace = insertedJobs w.trace := by
  simp [World.emit, insertedJobs, List.filterMap_append]

theorem notifyCalls_emit_log (w : World) (msg : String) :
    notifyCalls (w.emit (.log msg)).trace = notifyCalls w.trace := by
  simp [World.emit, notifyCalls, List.filterMap_append]

theorem notifyCalls_emit_logError (w : World) (msg : String) (e : Err) :
    notifyCalls (w.emit (.logError msg e)).trace = notifyCalls w.trace := by
  simp [World.emit, notifyCalls, List.filterMap_append]

theorem pass_effects (env : Env) (w : World) :
    ∃ scraped ws,
      scrapeUpworkJobs TAGS_TO_WATCH env (w.emit (.log "Checking for new jobs...")) =
        (.ok scraped, ws) ∧
      ws.store = w.store ∧
      (checkForNewJobs env w).1 = .ok () ∧
      (checkForNewJobs env w).2.store = (filterNewJobs scraped env ws).2.store ∧
      insertedJobs (checkForNewJobs env w).2.trace =
        insertedJobs (filterNewJobs scraped env ws).2.trace ∧
      insertedJobs ws.trace = insertedJobs w.trace ∧
      notifyCalls (checkForNewJobs env w).2.trace = notifyCalls w.trace ++
        (match (filterNewJobs scraped env ws).1 with
          | .ok newJobs => if newJobs = [] then [] else [newJobs]
          | .error _ => []) := by
  obtain ⟨scraped, ws, hs, hstore, hins, hnot⟩ :=
    scrape_run TAGS_TO_WATCH env (w.emit (.log "Checking for new jobs..."))
  have hnot0 : notifyCalls ws.trace = notifyCalls w.trace := by
    rw [hnot, notifyCalls_emit_log]
  have hins0 : insertedJobs ws.trace = insertedJobs w.trace := by
    rw [hins, insertedJobs_emit_log]
  have hstore0 : ws.store = w.store := by rw [hstore]; rfl
  obtain ⟨k, -, -, hloop⟩ := loop_effects env scraped [] ws
  refine ⟨scraped, ws, hs, hstore0, ?_⟩
  rw [checkForNewJobs_eq env w scraped ws hs]
  simp only [filterNewJobs] at hloop ⊢
  cases hf : filterNewJobsLoop scraped [] env ws with
  | mk res wf =>
    rw [hf] at hloop
    simp only at hloop
    cases res with
    | error e =>
      simp only [emit_store, insertedJobs_emit_logError, notifyCalls_emit_logError, hloop,
        hnot0, hins0, List.append_nil, and_self]
    | ok newJobs =>
      by_cases hlen : newJobs.length > 0
      · have hne : newJobs ≠ [] := by
          intro h; simp [h] at hlen
        obtain ⟨w1, h1, h2, h3, h4⟩ := send_run newJobs env
          (wf.emit (.log ("Found " ++ toString newJobs.length ++ " new job(s)")))
        simp only [hlen, if_true, h1, h2, h3, h4, hne, if_false, emit_store,
          insertedJobs_emit_log, notifyCalls_emit_log, hloop, hnot0, hins0, and_self]
      · have he : newJobs = [] := by
          cases newJobs with
          | nil => rfl
          | cons a l => simp at hlen
        subst he
        simp [emit_store, insertedJobs_emit_log, notifyCalls_emit_log, hloop, hnot0, hins0]

/-! ## Claims on one pass -/

/-- C4. No send on empty: in a pass of `checkForNewJobs`, with `scraped` the list returned by
`scrapeUpworkJobs`, the invocations of `sendEmailNotification` made by the pass are: exactly
one, with the list returned by `filterNewJobs`, when that list is non-empty; none when it is
empty; none when `filterNewJobs` throws. -/
theorem no_send_on_empty (env : Env) (w : World) :
    ∃ scraped ws,
      scrapeUpworkJobs TAGS_TO_WATCH env (w.emit (.log "Checking for new jobs...")) =
        (.ok scraped, ws) ∧
      notifyCalls (checkForNewJobs env w).2.trace = notifyCalls w.trace ++
        (match (filterNewJobs scraped env ws).1 with
          | .ok newJobs => if newJobs = [] then [] else [newJobs]
          | .error _ => []) := by
  obtain ⟨scraped, ws, hs, -, -, -, -, -, h⟩ := pass_effects env w
  exact ⟨scraped, ws, hs, h⟩

/-- C6. A failed pass never crashes: whatever the page and whichever external calls fail
(the fetch, any lookup or write, the mail dispatch), `checkForNewJobs` returns normally. -/
theorem pass_never_throws (env : Env) (w : World) : (checkForNewJobs env w).1 = .ok () := by
  obtain ⟨_, _, _, _, h, _⟩ := pass_effects env w
  exact h

/-- C10, as stated, fails: with two new candidates on the page and a failing lookup for the
second, the first is written to the store and `sendEmailNotification` is not invoked. -/
theorem recorded_without_notification_counterexample :
    (checkForNewJobs
        { page := [⟨"A", some "/jobs/a_~01", ["React developer"]⟩,
                   ⟨"B", some "/jobs/b_~02", ["React developer"]⟩],
          outcome := fun n => if n = 3 then some "store down" else none }
        ⟨[], 0, []⟩).2.store =
      [postingOf ⟨"A", some "/jobs/a_~01", ["React developer"]⟩] ∧
    insertedJobs (checkForNewJobs
        { page := [⟨"A", some "/jobs/a_~01", ["React developer"]⟩,
                   ⟨"B", some "/jobs/b_~02", ["React developer"]⟩],
          outcome := fun n => if n = 3 then some "store down" else none }
        ⟨[], 0, []⟩).2.trace =
      [postingOf ⟨"A", some "/jobs/a_~01", ["React developer"]⟩] ∧
    notifyCalls (checkForNewJobs
        { page := [⟨"A", some "/jobs/a_~01", ["React developer"]⟩,
                   ⟨"B", some "/jobs/b_~02", ["React developer"]⟩],
          outcome := fun n => if n = 3 then some "store down" else none }
        ⟨[], 0, []⟩).2.trace = [] := by
  decide

/-- C10, amended: the postings a pass writes to the store are the documents of its
successful `insertOne` calls; when `filterNewJobs` returns, they are exactly the returned
list, and, unless there is none, that list is the single batch handed to
`sendEmailNotification` in the pass, so every posting written is in the batch; when
`filterNewJobs` throws, the postings written before the failure stay in the store and
`sendEmailNotification` is not invoked in the pass. -/
theorem recorded_then_notified_unless_aborted (env : Env) (w : World) :
    ∃ scraped ws written,
      scrapeUpworkJobs TAGS_TO_WATCH env (w.emit (.log "Checking for new jobs...")) =
        (.ok scraped, ws) ∧
      (checkForNewJobs env w).2.store = w.store ++ written ∧
      insertedJobs (checkForNewJobs env w).2.trace = insertedJobs w.trace ++ written ∧
      (∀ newJobs, (filterNewJobs scraped env ws).1 = .ok newJobs →
        written = newJobs ∧
        notifyCalls (checkForNewJobs env w).2.trace =
          notifyCalls w.trace ++ (if newJobs = [] then [] else [newJobs]) ∧
        ∀ p ∈ written, ∃ batch ∈ (if newJobs = [] then [] else [newJobs]), p ∈ batch) ∧
      (∀ e, (filterNewJobs scraped env ws).1 = .error e →
        notifyCalls (checkForNewJobs env w).2.trace = notifyCalls w.trace) := by
  obtain ⟨scraped, ws, hs, hstore, -, h1, h2, h3, h4⟩ := pass_effects env w
  obtain ⟨k, hk1, hk2, -⟩ := loop_effects env scraped [] ws
  refine ⟨scraped, ws, freshRec ws.store (scraped.take k), hs, ?_, ?_, ?_, ?_⟩
  · rw [h1, filterNewJobs, hk1, hstore]
  · rw [h2, filterNewJobs, hk2, h3]
  · intro newJobs hok
    have hw : freshRec ws.store (scraped.take k) = newJobs := by
      cases hf : filterNewJobs scraped env ws with
      | mk res wf =>
        rw [hf] at hok
        simp only at hok
        subst hok
        have := (loop_ok_spec env scraped ws wf newJobs hf).2
        simp only [filterNewJobs] at hf
        rw [hf] at hk1
        simp only at hk1
        rw [this] at hk1
        exact (List.append_cancel_left hk1).symm
    refine ⟨hw, ?_, ?_⟩
    · rw [h4, hok]
    · intro p hp
      rw [hw] at hp
      have hne : newJobs ≠ [] := List.ne_nil_of_mem hp
      exact ⟨newJobs, by simp [hne], hp⟩
  · intro e herr
    rw [h4, herr]
    simp

/-! ## The scheduler -/

theorem serialized_bound (s0 : SchedState) (events : List SchedEvent) (s : SchedState)
    (h0 : s0.inFlight ≤ 1) (hser : serialized s0 events = true)
    (hrun : schedRun s0 events = some s) : s.inFlight ≤ 1 := by
  induction events generalizing s0 with
  | nil =>
    simp only [schedRun, Option.some.injEq] at hrun
    rw [← hrun]; exact h0
  | cons ev rest ih =>
    simp only [schedRun] at hrun
    simp only [serialized, Bool.and_eq_true, Bool.or_eq_true, beq_iff_eq] at hser
    cases hstep : schedStep s0 ev with
    | none => simp [hstep] at hrun
    | some s1 =>
      simp only [hstep] at hrun hser
      refine ih s1 ?_ hser.2 hrun
      cases ev with
      | startupCheck =>
        have hz : s0.inFlight = 0 := by simpa using hser.1
        simp only [schedStep] at hstep
        split at hstep
        · simp at hstep
        · simp only [Option.some.injEq] at hstep
          rw [← hstep]; simp [hz]
      | cronTick =>
        have hz : s0.inFlight = 0 := by simpa using hser.1
        simp only [schedStep] at hstep
        split at hstep
        · simp only [Option.some.injEq] at hstep
          rw [← hstep]; simp [hz]
        · simp at hstep
      | passFinished =>
        simp only [schedStep] at hstep
        split at hstep
        · simp only [Option.some.injEq] at hstep
          rw [← hstep]; simp; omega
        · simp at hstep

/-- C9, as stated, fails: the cron tick that arrives while the startup pass is running
starts a second pass, and two passes are in flight. -/
theorem single_flight_counterexample :
    schedRun SchedState.init [.startupCheck, .cronTick] =
      some { registered := true, inFlight := 2 } := by
  decide

/-- C9, amended: the scheduler has no single-flight guard. In every reachable state in
which the cron job is registered, a cron tick is enabled and raises the number of passes in
flight by one, also when a pass is running; the number of passes in flight stays at most 1
along the schedules in which every trigger arrives when no pass is in flight. -/
theorem single_flight_only_when_serialized (events : List SchedEvent) (s : SchedState)
    (hrun : schedRun SchedState.init events = some s) :
    (serialized SchedState.init events = true → s.inFlight ≤ 1) ∧
    (s.registered = true →
      schedStep s .cronTick = some { registered := true, inFlight := s.inFlight + 1 }) := by
  constructor
  · intro hser
    exact serialized_bound SchedState.init events s (by simp [SchedState.init]) hser hrun
  · intro hreg
    simp only [schedStep, hreg, if_true]

/-- A serialized schedule: startup pass, finished, tick, finished, tick. -/
theorem single_flight_only_when_serialized_witness :
    schedRun SchedState.init
        [.startupCheck, .passFinished, .cronTick, .passFinished, .cronTick] =
      some { registered := true, inFlight := 1 } ∧
    serialized SchedState.init
        [.startupCheck, .passFinished, .cronTick, .passFinished, .cronTick] = true ∧
    ({ registered := true, inFlight := 1 } : SchedState).inFlight ≤ 1 :=
  ⟨by decide, by decide,
    (single_flight_only_when_serialized
      [.startupCheck, .passFinished, .cronTick, .passFinished, .cronTick]
      { registered := true, inFlight := 1 } (by decide)).1 (by decide)⟩

end UpworkScraper
